import Mathlib

/-!
Verification development for the metadata-cache synchronization engine in
storage/backup/backup-cli/src/metadata/cache.rs.

The engine mirrors a remote catalog of metadata files into a local cache
directory and loads all records into memory.  We shallowly embed the data
model and the orchestration routine sync_and_load: the local cache
directory is a finite association list from filename to file bytes, the
remote storage trait object is an oracle record (listing results, bootstrap
save result, per-handle byte content), and the stages of sync_and_load
(list local, list remote with bootstrap, diff, evict, download, load) are
explicit recursive functions composed in source order.  Machine integers
are Nat with explicit reduction mod 2^64.
-/

set_option maxRecDepth 10000

/- ### 64-bit arithmetic helpers (Rust u64 semantics) -/

def mod64 (n : Nat) : Nat := n % 18446744073709551616

/-- rotate-left on 64-bit words, as Rust's u64::rotate_left for 0 < r < 64. -/
def rotl (x r : Nat) : Nat := mod64 (x <<< r) ||| (x >>> (64 - r))

/- ### SipHash-1-3, the algorithm behind std::collections::hash_map::DefaultHasher

Modelled from the spec (Rust standard library, external to this repository):
DefaultHasher is SipHash-1-3 with both keys zero; hashing a String feeds the
UTF-8 bytes of the string followed by a single 0xff byte. -/

structure SipState where
  v0 : Nat
  v1 : Nat
  v2 : Nat
  v3 : Nat

def sipRound (s : SipState) : SipState :=
  let v0 := mod64 (s.v0 + s.v1)
  let v1 := rotl s.v1 13
  let v1 := v1 ^^^ v0
  let v0 := rotl v0 32
  let v2 := mod64 (s.v2 + s.v3)
  let v3 := rotl s.v3 16
  let v3 := v3 ^^^ v2
  let v0 := mod64 (v0 + v3)
  let v3 := rotl v3 21
  let v3 := v3 ^^^ v0
  let v2 := mod64 (v2 + v1)
  let v1 := rotl v1 17
  let v1 := v1 ^^^ v2
  let v2 := rotl v2 32
  ⟨v0, v1, v2, v3⟩

/-- one SipHash compression step for message word m. -/
def sipCompress (s : SipState) (m : Nat) : SipState :=
  let s := { s with v3 := s.v3 ^^^ m }
  let s := sipRound s
  { s with v0 := s.v0 ^^^ m }

/-- little-endian word value of a byte list. -/
def leBytes (bs : List Nat) : Nat := bs.foldr (fun b acc => b + acc * 256) 0

/-- consume all full 8-byte blocks, returning the state and the tail bytes. -/
def sipLoop (s : SipState) : List Nat → SipState × List Nat
  | b0 :: b1 :: b2 :: b3 :: b4 :: b5 :: b6 :: b7 :: rest =>
      sipLoop (sipCompress s (leBytes [b0, b1, b2, b3, b4, b5, b6, b7])) rest
  | bs => (s, bs)

/-- SipHash-1-3 of a byte string with keys (0, 0): initial state is the
SipHash constants, one compression round per block, final block carries the
length mod 256 in the top byte, three finalization rounds. -/
def sipHash13 (msg : List Nat) : Nat :=
  let s0 : SipState :=
    ⟨0x736f6d6570736575, 0x646f72616e646f6d, 0x6c7967656e657261, 0x7465646279746573⟩
  let p := sipLoop s0 msg
  let b := ((msg.length % 256) <<< 56) ||| leBytes p.2
  let s := sipCompress p.1 b
  let s := { s with v2 := s.v2 ^^^ 0xff }
  let s := sipRound (sipRound (sipRound s))
  s.v0 ^^^ s.v1 ^^^ s.v2 ^^^ s.v3

/- ### UTF-8 encoding (String hashing feeds the string's UTF-8 bytes) -/

def utf8EncodeChar (c : Char) : List Nat :=
  let n := c.toNat
  if n < 0x80 then [n]
  else if n < 0x800 then [0xC0 ||| (n >>> 6), 0x80 ||| (n &&& 0x3F)]
  else if n < 0x10000 then
    [0xE0 ||| (n >>> 12), 0x80 ||| ((n >>> 6) &&& 0x3F), 0x80 ||| (n &&& 0x3F)]
  else
    [0xF0 ||| (n >>> 18), 0x80 ||| ((n >>> 12) &&& 0x3F),
     0x80 ||| ((n >>> 6) &&& 0x3F), 0x80 ||| (n &&& 0x3F)]

def utf8Encode (s : String) : List Nat := (s.data.map utf8EncodeChar).flatten

/- ### Hex formatting, as Rust's format "{:x}" on u64: minimal-width lowercase
hex digits, no leading zeros, and "0" for zero. -/

def hexDigit (n : Nat) : Char :=
  Char.ofNat (if n < 10 then 48 + n else 87 + n)

/-- most-significant-first hex digits of n; fuel bounds the digit count (16
suffices for values below 2^64). -/
def hexCharsAux : Nat → Nat → List Char
  | 0, _ => []
  | f + 1, n => if n = 0 then [] else hexCharsAux f (n / 16) ++ [hexDigit (n % 16)]

def toHex (n : Nat) : String :=
  if n = 0 then "0" else String.mk (hexCharsAux 16 n)

/- ### The data model -/

/-- Modelled from the spec: a FileHandle is an opaque locator, an
implementation-defined string/URI (the concrete alias lives in
storage/mod.rs, outside the sampled sources). -/
abbrev FileHandle := String

abbrev CacheKey := String

/-- Embeds FileHandleHash::file_handle_hash (cache.rs lines 210-218): feed
the handle to a fresh DefaultHasher and format the 64-bit result with
format "{:x}". -/
def file_handle_hash (fh : FileHandle) : CacheKey :=
  toHex (sipHash13 (utf8Encode fh ++ [0xff]))

/-- a Metadata record as produced by serde_json parsing of one line; the
concrete Metadata enum lives outside the sampled sources, so records are
opaque values carried by the parse oracle. -/
abbrev Metadata := List Char

/-- contents of the local cache directory: filename paired with raw bytes. -/
abbrev CacheDir := List (String × List Nat)

def dirNames (d : CacheDir) : List String := d.map Prod.fst

def lookupName {α : Type} (h : String) : List (String × α) → Option α
  | [] => none
  | e :: rest => if e.1 = h then some e.2 else lookupName h rest

/-- a directory is well-formed when filenames are distinct, as they are in a
real directory. -/
def dirWF (d : CacheDir) : Prop := (dirNames d).Nodup

instance (d : CacheDir) : Decidable (dirWF d) := by
  unfold dirWF; infer_instance

/-- names of in-flight temporary entries start with a dot. -/
def isTempName (s : String) : Bool := s.data.head? = some '.'

inductive SyncError where
  | listFailed (note : String)
  | bootstrapFailed (note : String)
  | removeFailed (path : String)
  | downloadPanicked (key : String)
  | openFailed (note : String)
  | createNewFailed (path : String)
  | missingFile (path : String)
  | invalidUtf8 (path : String)
  | parseFailed (path : String)
deriving DecidableEq

/-- classification of error kinds per the error-handling design: local
filesystem failures (delete, exclusive create, open of a cached file,
read_to_string rejecting invalid UTF-8) are I/O-level errors. -/
def SyncError.isIoErrorKind : SyncError → Bool
  | .removeFailed _ => true
  | .createNewFailed _ => true
  | .missingFile _ => true
  | .invalidUtf8 _ => true
  | _ => false

inductive Event where
  | listedRemote
  | bootstrapWrite
  | deleted (name : String)
  | downloaded (key : CacheKey)
deriving DecidableEq

/-- oracle for the BackupStorage trait object: result of the first
list_metadata_files call, of the bootstrap save_metadata_line call, of the
re-listing after bootstrap, and the byte stream each handle opens to. -/
structure Storage where
  list1 : Except String (List FileHandle)
  save : Except String Unit
  list2 : Except String (List FileHandle)
  read : FileHandle → Except String (List Nat)

/-- environment of one sync_and_load call: the remote oracle, the starting
cache directory, fault injection for remove_file, and the serde_json parse
oracle for the Metadata type. -/
structure Env where
  storage : Storage
  initialDir : CacheDir
  removeOk : String → Bool
  parse : List Char → Option Metadata

structure SyncOutcome where
  result : Except SyncError (List Metadata)
  dir : CacheDir
  events : List Event

/- ### UTF-8 decoding, as tokio's read_to_string: strict validation, an
invalid byte sequence is an InvalidData I/O error (modelled as none). -/

def isCont (b : Nat) : Bool := 0x80 ≤ b && b < 0xC0

def utf8Decode : List Nat → Option (List Char)
  | [] => some []
  | b :: rest =>
    if b < 0x80 then (utf8Decode rest).map (Char.ofNat b :: ·)
    else if b < 0xC2 then none
    else if b ≤ 0xDF then
      match rest with
      | b1 :: rest2 =>
        if isCont b1 then
          (utf8Decode rest2).map (Char.ofNat (((b - 0xC0) <<< 6) + (b1 - 0x80)) :: ·)
        else none
      | _ => none
    else if b ≤ 0xEF then
      match rest with
      | b1 :: b2 :: rest2 =>
        let lo1 := if b = 0xE0 then 0xA0 else 0x80
        let hi1 := if b = 0xED then 0x9F else 0xBF
        if lo1 ≤ b1 && b1 ≤ hi1 && isCont b2 then
          (utf8Decode rest2).map
            (Char.ofNat ((((b - 0xE0) <<< 12) + ((b1 - 0x80) <<< 6)) + (b2 - 0x80)) :: ·)
        else none
      | _ => none
    else if b ≤ 0xF4 then
      match rest with
      | b1 :: b2 :: b3 :: rest2 =>
        let lo1 := if b = 0xF0 then 0x90 else 0x80
        let hi1 := if b = 0xF4 then 0x8F else 0xBF
        if lo1 ≤ b1 && b1 ≤ hi1 && isCont b2 && isCont b3 then
          (utf8Decode rest2).map
            (Char.ofNat (((((b - 0xF0) <<< 18) + ((b1 - 0x80) <<< 12)) +
              ((b2 - 0x80) <<< 6)) + (b3 - 0x80)) :: ·)
        else none
      | _ => none
    else none

/- ### Line splitting, as Rust's str::lines(): lines end at a newline or at a
carriage return followed by a newline, the final line ending is optional, and
an interior empty line IS yielded (str::lines does not skip empty lines). -/

/-- strip one trailing carriage return, applied only to segments that were
terminated by a newline. -/
def stripCr (l : List Char) : List Char :=
  if l.getLast? = some '\r' then l.dropLast else l

def linesGo (acc : List Char) : List Char → List (List Char)
  | [] => [acc.reverse]
  | '\n' :: [] => [stripCr acc.reverse]
  | '\n' :: rest => stripCr acc.reverse :: linesGo [] rest
  | c :: rest => linesGo (c :: acc) rest

def rustLines (cs : List Char) : List (List Char) :=
  match cs with
  | [] => []
  | _ => linesGo [] cs

/- ### The stages of sync_and_load -/

/-- Embeds cache.rs lines 106-115: list the remote catalog; when the listing
comes back empty, write the bootstrap identity record (initialize_identity)
with the contextual failure message, then re-list; the result is the handle
list the rest of the sync uses. -/
def listRemotePhase (st : Storage) : Except SyncError (List FileHandle) :=
  match st.list1 with
  | .error e => .error (.listFailed e)
  | .ok l1 =>
    if l1.isEmpty then
      match st.save with
      | .error e => .error (.bootstrapFailed e)
      | .ok _ =>
        match st.list2 with
        | .error e => .error (.listFailed e)
        | .ok l2 => .ok l2
    else .ok l1

/-- trace of remote-catalog interactions of listRemotePhase: one listing,
then on an empty result one bootstrap write and one re-listing. -/
def listEvents (st : Storage) : List Event :=
  match st.list1 with
  | .error _ => [.listedRemote]
  | .ok l1 =>
    if l1.isEmpty then
      match st.save with
      | .error _ => [.listedRemote, .bootstrapWrite]
      | .ok _ => [.listedRemote, .bootstrapWrite, .listedRemote]
    else [.listedRemote]

/-- Embeds cache.rs lines 116-119: collect the handles into a map keyed by
file_handle_hash; as with HashMap::collect, a later handle with the same
hash replaces an earlier one. -/
def insertReplace (m : List (CacheKey × FileHandle)) (k : CacheKey) (fh : FileHandle) :
    List (CacheKey × FileHandle) :=
  if k ∈ m.map Prod.fst then m.map (fun p => if p.1 = k then (k, fh) else p)
  else m ++ [(k, fh)]

def buildByHash (handles : List FileHandle) : List (CacheKey × FileHandle) :=
  handles.foldl (fun m fh => insertReplace m (file_handle_hash fh) fh) []

/-- Embeds cache.rs line 125: stale = local set minus remote set. -/
def diffStale (localNames remoteHashes : List String) : List String :=
  localNames.filter (fun n => decide (¬ n ∈ remoteHashes))

/-- Embeds cache.rs line 126: missing = remote set minus local set. -/
def diffMissing (localNames remoteHashes : List String) : List String :=
  remoteHashes.filter (fun n => decide (¬ n ∈ localNames))

/-- Embeds cache.rs line 127: current = local set intersected with remote. -/
def diffCurrent (localNames remoteHashes : List String) : List String :=
  localNames.filter (fun n => decide (n ∈ remoteHashes))

/-- Embeds cache.rs lines 129-133: delete each stale file in turn; a
remove_file failure (file absent, or injected fault) aborts with an error
noting the offending path. -/
def evictGo (removeOk : String → Bool) :
    List String → CacheDir → List Event → CacheDir × List Event × Option SyncError
  | [], d, evs => (d, evs, none)
  | h :: t, d, evs =>
    if decide (h ∈ dirNames d) && removeOk h then
      evictGo removeOk t (d.filter (fun e => decide (e.1 ≠ h))) (evs ++ [.deleted h])
    else (d, evs, some (.removeFailed h))

/-- Embeds cache.rs lines 138-180 (sequentialized): for each missing key,
look its handle up (the expect "In map."), open the remote stream, create
the dot-prefixed temporary file exclusively (create_new fails when the file
already exists), copy the bytes in, and rename the temporary file onto the
final name (rename replaces an existing destination); the first failure
aborts the stage. -/
def downloadGo (read : FileHandle → Except String (List Nat))
    (byHash : List (CacheKey × FileHandle)) :
    List CacheKey → CacheDir → List Event → CacheDir × List Event × Option SyncError
  | [], d, evs => (d, evs, none)
  | h :: t, d, evs =>
    match lookupName h byHash with
    | none => (d, evs, some (.downloadPanicked h))
    | some fh =>
      match read fh with
      | .error e => (d, evs, some (.openFailed e))
      | .ok bytes =>
        let tmp := "." ++ h
        if decide (tmp ∈ dirNames d) then (d, evs, some (.createNewFailed tmp))
        else
          let d2 := ((d ++ [(tmp, bytes)]).filter
            (fun e => decide (e.1 ≠ tmp) && decide (e.1 ≠ h))) ++ [(h, bytes)]
          downloadGo read byHash t d2 (evs ++ [.downloaded h])

/-- parse every line in order, failing as collect over Result does when any
single line fails to parse. -/
def parseAll (parse : List Char → Option Metadata) : List (List Char) → Option (List Metadata)
  | [] => some []
  | l :: ls => (parse l).bind fun r => (parseAll parse ls).map (fun rs => r :: rs)

/-- per-file loading (cache.rs lines 186-197 and 226-237): open the final
cached file, read it to a string (strict UTF-8), split into lines with
str::lines, and parse every yielded line with serde_json. -/
def fileRecords (parse : List Char → Option Metadata) (d : CacheDir) (h : String) :
    Option (List Metadata) :=
  (lookupName h d).bind fun bytes =>
    (utf8Decode bytes).bind fun chars => parseAll parse (rustLines chars)

/-- records of each listed key in order; none when any file is absent,
undecodable or unparsable. -/
def recordsAll (parse : List Char → Option Metadata) (d : CacheDir) :
    List String → Option (List (List Metadata))
  | [] => some []
  | h :: t => (fileRecords parse d h).bind fun rs =>
      (recordsAll parse d t).map (fun rest => rs :: rest)

/-- Embeds cache.rs lines 184-198: load the files of the given keys in
order, concatenating their records; failures are told apart by stage (file
absent, invalid UTF-8, parse failure on some line). -/
def loadGo (parse : List Char → Option Metadata) (d : CacheDir) :
    List String → Except SyncError (List Metadata)
  | [] => .ok []
  | h :: t =>
    match lookupName h d with
    | none => .error (.missingFile h)
    | some bytes =>
      match utf8Decode bytes with
      | none => .error (.invalidUtf8 h)
      | some chars =>
        match parseAll parse (rustLines chars) with
        | none => .error (.parseFailed h)
        | some recs => (loadGo parse d t).map (fun rest => recs ++ rest)

/-- keys of the remote-handle map, i.e. the remote CacheKey set. -/
abbrev remoteKeys (handles : List FileHandle) : List CacheKey :=
  (buildByHash handles).map Prod.fst

/-- the stale partition of one sync over a starting directory. -/
abbrev staleOf (env : Env) (handles : List FileHandle) : List String :=
  diffStale (dirNames env.initialDir) (remoteKeys handles)

/-- the missing partition of one sync over a starting directory. -/
abbrev missingOf (env : Env) (handles : List FileHandle) : List String :=
  diffMissing (dirNames env.initialDir) (remoteKeys handles)

/-- the current (up-to-date) partition of one sync over a starting directory. -/
abbrev currentOf (env : Env) (handles : List FileHandle) : List String :=
  diffCurrent (dirNames env.initialDir) (remoteKeys handles)

/-- Embeds sync_and_load (cache.rs lines 76-204): list the local cache
directory, list the remote catalog (bootstrapping once if it is empty), key
the handles by file_handle_hash, diff local against remote, evict stale
files, download missing files through temp-then-rename, and load the
records of every file whose key is in missing followed by current. -/
def syncAndLoad (env : Env) : SyncOutcome :=
  let evs0 := listEvents env.storage
  match listRemotePhase env.storage with
  | .error e => ⟨.error e, env.initialDir, evs0⟩
  | .ok handles =>
    match evictGo env.removeOk (staleOf env handles) env.initialDir evs0 with
    | (d1, evs1, some e) => ⟨.error e, d1, evs1⟩
    | (d1, evs1, none) =>
      match downloadGo env.storage.read (buildByHash handles) (missingOf env handles) d1 evs1 with
      | (d2, evs2, some e) => ⟨.error e, d2, evs2⟩
      | (d2, evs2, none) =>
        match loadGo env.parse d2 (missingOf env handles ++ currentOf env handles) with
        | .error e => ⟨.error e, d2, evs2⟩
        | .ok recs => ⟨.ok recs, d2, evs2⟩

instance {e a : Type} [DecidableEq e] [DecidableEq a] : DecidableEq (Except e a) := fun x y =>
  match x, y with
  | .error u, .error v =>
    if h : u = v then isTrue (by rw [h]) else isFalse (by simp [h])
  | .error _, .ok _ => isFalse (by simp)
  | .ok _, .error _ => isFalse (by simp)
  | .ok u, .ok v =>
    if h : u = v then isTrue (by rw [h]) else isFalse (by simp [h])

/- ### Concrete environments used to instantiate the theorems

The hash values appearing below are the values of file_handle_hash on the
given handles (checked by the proofs themselves): file_handle_hash of the
handle called a is 719b50b9a4f0e9f3, of f-handle is 6578504f6f8efee1, of b
is ebd3e4fd8943240a. -/

/-- one remote handle, empty local cache; the remote stream holds one
record line. -/
def envC1 : Env :=
  { storage :=
      { list1 := .ok ["a"]
        save := .ok ()
        list2 := .ok []
        read := fun _ => .ok (utf8Encode "r\n") }
    initialDir := []
    removeOk := fun _ => true
    parse := fun l => if l = [] then none else some l }

/-- an orphaned dot-prefixed temporary file for the one missing key is
already on disk when the sync starts. -/
def envC2 : Env :=
  { storage :=
      { list1 := .ok ["f-handle"]
        save := .ok ()
        list2 := .ok []
        read := fun _ => .ok (utf8Encode "xrec\n") }
    initialDir := [(".6578504f6f8efee1", [65])]
    removeOk := fun _ => true
    parse := fun l => if l = [] then none else some l }

/-- the remote catalog is empty on the first listing, the bootstrap write
succeeds, and the re-listing is empty again. -/
def envC3 : Env :=
  { storage :=
      { list1 := .ok []
        save := .ok ()
        list2 := .ok []
        read := fun _ => .error "unused" }
    initialDir := []
    removeOk := fun _ => true
    parse := fun l => if l = [] then none else some l }

/-- the one remote file is already cached and its cached text has an
interior empty line between two parseable lines. -/
def envC4 : Env :=
  { storage :=
      { list1 := .ok ["a"]
        save := .ok ()
        list2 := .ok []
        read := fun _ => .error "unused" }
    initialDir := [("719b50b9a4f0e9f3", utf8Encode "A\n\nB")]
    removeOk := fun _ => true
    parse := fun l => if l = [] then none else some l }

/-- one current file, one missing file and one stale file, each with
distinct record lines. -/
def envC5 : Env :=
  { storage :=
      { list1 := .ok ["a", "b"]
        save := .ok ()
        list2 := .ok []
        read := fun _ => .ok (utf8Encode "B1\nB2\n") }
    initialDir :=
      [("719b50b9a4f0e9f3", utf8Encode "A\n"), ("deadbeef", utf8Encode "Z\n")]
    removeOk := fun _ => true
    parse := fun l => if l = [] then none else some l }

/-- deleting the one stale file fails while a download is pending. -/
def envC6 : Env :=
  { storage :=
      { list1 := .ok ["a"]
        save := .ok ()
        list2 := .ok []
        read := fun _ => .ok (utf8Encode "r\n") }
    initialDir := [("stalefile", [65])]
    removeOk := fun n => n != "stalefile"
    parse := fun l => if l = [] then none else some l }

/-- the remote catalog is empty on the first listing and the bootstrap
write makes the re-listing non-empty. -/
def envC8 : Env :=
  { storage :=
      { list1 := .ok []
        save := .ok ()
        list2 := .ok ["a"]
        read := fun _ => .ok (utf8Encode "r\n") }
    initialDir := []
    removeOk := fun _ => true
    parse := fun l => if l = [] then none else some l }

/-- the one remote file is already cached but its cached bytes are not
valid UTF-8 (a lone 0xFF byte). -/
def envC10 : Env :=
  { storage :=
      { list1 := .ok ["a"]
        save := .ok ()
        list2 := .ok []
        read := fun _ => .error "unused" }
    initialDir := [("719b50b9a4f0e9f3", [255])]
    removeOk := fun _ => true
    parse := fun l => if l = [] then none else some l }

/- ### Basic lemmas on directories and names -/

theorem dirNames_filter (d : CacheDir) (q : String → Bool) :
    dirNames (d.filter (fun e => q e.1)) = (dirNames d).filter q := by
  induction d with
  | nil => rfl
  | cons e t ih =>
    simp only [dirNames, List.map_cons, List.filter_cons] at *
    cases hq : q e.1 <;> simp [hq, ih]

theorem dirNames_append (d1 d2 : CacheDir) :
    dirNames (d1 ++ d2) = dirNames d1 ++ dirNames d2 := by
  simp [dirNames]

theorem isTempName_dot (k : String) : isTempName ("." ++ k) = true := by
  have hdata : ("." ++ k).data = '.' :: k.data := by
    rw [String.data_append]; rfl
  simp [isTempName, hdata]

/- ### Lemmas on the hex formatting of cache keys -/

theorem hexCharsAux_ne_dot :
    ∀ (f n : Nat) (c : Char), c ∈ hexCharsAux f n → c ≠ '.' := by
  intro f
  induction f with
  | zero => intro n c hc; simp [hexCharsAux] at hc
  | succ f ih =>
    intro n c hc
    by_cases h0 : n = 0
    · simp [hexCharsAux, h0] at hc
    · simp only [hexCharsAux, if_neg h0, List.mem_append, List.mem_singleton] at hc
      rcases hc with hc | hc
      · exact ih _ _ hc
      · have hlt : n % 16 < 16 := Nat.mod_lt _ (by norm_num)
        have hall : ∀ k, k < 16 → hexDigit k ≠ '.' := by decide
        rw [hc]; exact hall _ hlt

theorem hexCharsAux_length (f : Nat) : ∀ n, (hexCharsAux f n).length ≤ f := by
  induction f with
  | zero => intro n; simp [hexCharsAux]
  | succ f ih =>
    intro n
    by_cases h0 : n = 0
    · simp [hexCharsAux, h0]
    · simp only [hexCharsAux, if_neg h0, List.length_append, List.length_singleton]
      exact Nat.add_le_add (ih _) (Nat.le_refl 1)

theorem hexCharsAux_ne_nil (f n : Nat) (h0 : n ≠ 0) : hexCharsAux (f + 1) n ≠ [] := by
  simp only [hexCharsAux, if_neg h0]
  intro hcon
  exact absurd (List.append_eq_nil.mp hcon).2 (by simp)

theorem file_handle_hash_not_temp (fh : FileHandle) :
    isTempName (file_handle_hash fh) = false := by
  unfold file_handle_hash toHex
  by_cases h0 : sipHash13 (utf8Encode fh ++ [0xff]) = 0
  · rw [if_pos h0]; decide
  · rw [if_neg h0]
    rcases hl : hexCharsAux 16 (sipHash13 (utf8Encode fh ++ [0xff])) with _ | ⟨c, cs⟩
    · exact absurd hl (hexCharsAux_ne_nil 15 _ h0)
    · have hc : c ≠ '.' := hexCharsAux_ne_dot 16 _ c (by rw [hl]; exact List.mem_cons_self c cs)
      simp [isTempName, hc]

theorem file_handle_hash_length (fh : FileHandle) :
    1 ≤ (file_handle_hash fh).length ∧ (file_handle_hash fh).length ≤ 16 := by
  unfold file_handle_hash toHex
  by_cases h0 : sipHash13 (utf8Encode fh ++ [0xff]) = 0
  · rw [if_pos h0]; exact ⟨by decide, by decide⟩
  · rw [if_neg h0]
    have hlen : (String.mk (hexCharsAux 16 (sipHash13 (utf8Encode fh ++ [0xff])))).length =
        (hexCharsAux 16 (sipHash13 (utf8Encode fh ++ [0xff]))).length := rfl
    rw [hlen]
    constructor
    · rcases hl : hexCharsAux 16 (sipHash13 (utf8Encode fh ++ [0xff])) with _ | ⟨c, cs⟩
      · exact absurd hl (hexCharsAux_ne_nil 15 _ h0)
      · simp
    · exact hexCharsAux_length 16 _

/- ### Lemmas on the eviction stage -/

theorem evictGo_none_mem {rm : String → Bool} :
    ∀ {hs : List String} {d : CacheDir} {evs : List Event} {d2 : CacheDir} {evs2 : List Event},
    evictGo rm hs d evs = (d2, evs2, none) →
    ∀ n, n ∈ dirNames d2 ↔ (n ∈ dirNames d ∧ ¬ n ∈ hs) := by
  intro hs
  induction hs with
  | nil =>
    intro d evs d2 evs2 hE n
    simp only [evictGo] at hE
    obtain ⟨rfl, -, -⟩ : d = d2 ∧ evs = evs2 ∧ True := by
      refine ⟨?_, ?_, trivial⟩ <;> cases hE <;> rfl
    simp
  | cons h t ih =>
    intro d evs d2 evs2 hE n
    simp only [evictGo] at hE
    by_cases hc : (decide (h ∈ dirNames d) && rm h) = true
    · rw [if_pos hc] at hE
      have hmem := ih hE n
      rw [dirNames_filter d (fun m => decide (m ≠ h))] at hmem
      simp only [List.mem_filter, decide_eq_true_eq] at hmem
      rw [hmem]
      constructor
      · rintro ⟨⟨hd, hne⟩, hnt⟩
        exact ⟨hd, by simp [hne, hnt]⟩
      · rintro ⟨hd, hnot⟩
        simp only [List.mem_cons, not_or] at hnot
        exact ⟨⟨hd, hnot.1⟩, hnot.2⟩
    · rw [if_neg hc] at hE
      cases hE

theorem evictGo_none_of_all {rm : String → Bool} :
    ∀ {hs : List String} {d : CacheDir} {evs : List Event},
    hs.Nodup → (∀ n, n ∈ hs → n ∈ dirNames d ∧ rm n = true) →
    ∃ d2 evs2, evictGo rm hs d evs = (d2, evs2, none) := by
  intro hs
  induction hs with
  | nil => intro d evs _ _; exact ⟨d, evs, rfl⟩
  | cons h t ih =>
    intro d evs hnd hall
    have hh := hall h (List.mem_cons_self h t)
    have hc : (decide (h ∈ dirNames d) && rm h) = true := by
      simp [hh.1, hh.2]
    simp only [evictGo, if_pos hc]
    refine ih (List.Nodup.of_cons hnd) ?_
    intro n hn
    have hnd2 := List.Nodup.not_mem hnd
    have hne : n ≠ h := fun he => hnd2 (he ▸ hn)
    have hn2 := hall n (List.mem_cons_of_mem h hn)
    refine ⟨?_, hn2.2⟩
    rw [dirNames_filter d (fun m => decide (m ≠ h))]
    simp [List.mem_filter, hn2.1, hne]

theorem evictGo_events {rm : String → Bool} :
    ∀ (hs : List String) (d : CacheDir) (evs : List Event),
    ∃ l, (evictGo rm hs d evs).2.1 = evs ++ l ∧ ∀ ev, ev ∈ l → ∃ n, ev = Event.deleted n := by
  intro hs
  induction hs with
  | nil => intro d evs; exact ⟨[], by simp [evictGo], by simp⟩
  | cons h t ih =>
    intro d evs
    simp only [evictGo]
    by_cases hc : (decide (h ∈ dirNames d) && rm h) = true
    · rw [if_pos hc]
      obtain ⟨l, hl, hall⟩ := ih (d.filter (fun e => decide (e.1 ≠ h))) (evs ++ [Event.deleted h])
      refine ⟨Event.deleted h :: l, ?_, ?_⟩
      · rw [hl]; simp
      · intro ev hev
        rcases List.mem_cons.mp hev with rfl | hev
        · exact ⟨h, rfl⟩
        · exact hall ev hev
    · rw [if_neg hc]
      exact ⟨[], by simp, by simp⟩

theorem evictGo_fail {rm : String → Bool} :
    ∀ {hs : List String} {d : CacheDir} {evs : List Event} {h : String},
    h ∈ hs → rm h = false → hs.Nodup →
    (∀ n, n ∈ hs → n ≠ h → n ∈ dirNames d ∧ rm n = true) →
    ∃ d2 evs2, evictGo rm hs d evs = (d2, evs2, some (SyncError.removeFailed h)) := by
  intro hs
  induction hs with
  | nil => intro d evs h hmem; cases hmem
  | cons a t ih =>
    intro d evs h hmem hrm hnd hall
    by_cases hah : a = h
    · subst hah
      have hc : (decide (a ∈ dirNames d) && rm a) = false := by simp [hrm]
      simp only [evictGo, hc]
      exact ⟨d, evs, by simp⟩
    · have ha := hall a (List.mem_cons_self a t) hah
      have hc : (decide (a ∈ dirNames d) && rm a) = true := by simp [ha.1, ha.2]
      simp only [evictGo, if_pos hc]
      have hmemt : h ∈ t := by
        rcases List.mem_cons.mp hmem with rfl | ht
        · exact absurd rfl hah
        · exact ht
      refine ih hmemt hrm (List.Nodup.of_cons hnd) ?_
      intro n hn hne
      have hnd2 := List.Nodup.not_mem hnd
      have hna : n ≠ a := fun he => hnd2 (he ▸ hn)
      have hn2 := hall n (List.mem_cons_of_mem a hn) hne
      refine ⟨?_, hn2.2⟩
      rw [dirNames_filter d (fun m => decide (m ≠ a))]
      simp [List.mem_filter, hn2.1, hna]

/- ### Lemmas on the download stage -/

theorem downloadGo_none_mem {read : FileHandle → Except String (List Nat)}
    {byHash : List (CacheKey × FileHandle)} :
    ∀ {ks : List CacheKey} {d : CacheDir} {evs : List Event} {d2 : CacheDir} {evs2 : List Event},
    downloadGo read byHash ks d evs = (d2, evs2, none) →
    ∀ n, n ∈ dirNames d2 ↔ (n ∈ dirNames d ∨ n ∈ ks) := by
  intro ks
  induction ks with
  | nil =>
    intro d evs d2 evs2 hE n
    simp only [downloadGo] at hE
    obtain ⟨rfl, -⟩ : d = d2 ∧ True := by
      refine ⟨?_, trivial⟩; cases hE; rfl
    simp
  | cons h t ih =>
    intro d evs d2 evs2 hE n
    simp only [downloadGo] at hE
    split at hE
    · cases hE
    · rename_i fh hfh
      split at hE
      · cases hE
      · rename_i bytes hrd
        split at hE
        · cases hE
        · rename_i htmp
          have htmp2 : ¬ ("." ++ h) ∈ dirNames d := by simpa using htmp
          have hj : n ∈ dirNames d → ¬ n = "." ++ h := fun hm he => htmp2 (he ▸ hm)
          have hmem := ih hE n
          rw [hmem]
          rw [dirNames_append, dirNames_filter _
            (fun m => decide (m ≠ "." ++ h) && decide (m ≠ h)), dirNames_append]
          have hnames : dirNames [(("." ++ h : String), bytes)] = ["." ++ h] := rfl
          have hnames2 : dirNames [((h : String), bytes)] = [h] := rfl
          rw [hnames, hnames2]
          simp only [List.mem_append, List.mem_filter, List.mem_singleton,
            Bool.and_eq_true, decide_eq_true_eq, List.mem_cons, List.not_mem_nil, or_false]
          tauto

theorem downloadGo_events {read : FileHandle → Except String (List Nat)}
    {byHash : List (CacheKey × FileHandle)} :
    ∀ (ks : List CacheKey) (d : CacheDir) (evs : List Event),
    ∃ l, (downloadGo read byHash ks d evs).2.1 = evs ++ l ∧
      ∀ ev, ev ∈ l → ∃ k, ev = Event.downloaded k := by
  intro ks
  induction ks with
  | nil => intro d evs; exact ⟨[], by simp [downloadGo], by simp⟩
  | cons h t ih =>
    intro d evs
    simp only [downloadGo]
    split
    · exact ⟨[], by simp, by simp⟩
    · rename_i fh hfh
      split
      · exact ⟨[], by simp, by simp⟩
      · rename_i bytes hrd
        split
        · exact ⟨[], by simp, by simp⟩
        · rename_i htmp
          obtain ⟨l, hl, hall⟩ := ih
            ((List.filter (fun e => decide (e.1 ≠ "." ++ h) && decide (e.1 ≠ h))
              (d ++ [("." ++ h, bytes)])) ++ [(h, bytes)]) (evs ++ [Event.downloaded h])
          refine ⟨Event.downloaded h :: l, ?_, ?_⟩
          · rw [hl]; simp
          · intro ev hev
            rcases List.mem_cons.mp hev with rfl | hev
            · exact ⟨h, rfl⟩
            · exact hall ev hev

/- ### Lemmas on the load stage -/

theorem loadGo_ok {parse : List Char → Option Metadata} {d : CacheDir} :
    ∀ {ks : List String} {v : List Metadata},
    loadGo parse d ks = .ok v →
    ∃ chunks, recordsAll parse d ks = some chunks ∧ v = chunks.flatten := by
  intro ks
  induction ks with
  | nil =>
    intro v hL
    refine ⟨[], rfl, ?_⟩
    simp only [loadGo] at hL
    cases hL
    rfl
  | cons h t ih =>
    intro v hL
    simp only [loadGo] at hL
    split at hL
    · cases hL
    · rename_i bytes hbytes
      split at hL
      · cases hL
      · rename_i chars hchars
        split at hL
        · cases hL
        · rename_i recs hrecs
          rcases hrest : loadGo parse d t with e | rest
          · rw [hrest] at hL; cases hL
          · rw [hrest] at hL
            obtain ⟨chunks, hall, hflat⟩ := ih hrest
            have hfr : fileRecords parse d h = some recs := by
              simp [fileRecords, hbytes, hchars, hrecs]
            refine ⟨recs :: chunks, ?_, ?_⟩
            · simp [recordsAll, hfr, hall]
            · cases hL
              simp [hflat]

theorem loadGo_first_bad {parse : List Char → Option Metadata} {d : CacheDir}
    {h : String} {post : List String} {bytes : List Nat} :
    ∀ {pre : List String},
    (∀ k, k ∈ pre → (fileRecords parse d k).isSome) →
    lookupName h d = some bytes → utf8Decode bytes = none →
    loadGo parse d (pre ++ h :: post) = .error (.invalidUtf8 h) := by
  intro pre
  induction pre with
  | nil =>
    intro _ hbytes hbad
    simp only [List.nil_append, loadGo, hbytes, hbad]
  | cons k pre ih =>
    intro hpre hbytes hbad
    have hk := hpre k (List.mem_cons_self k pre)
    rcases hfr : fileRecords parse d k with _ | rs
    · rw [hfr] at hk; cases hk
    · have hrest := ih (fun m hm => hpre m (List.mem_cons_of_mem k hm)) hbytes hbad
      simp only [fileRecords] at hfr
      rcases hkb : lookupName k d with _ | kbytes
      · rw [hkb] at hfr; cases hfr
      · rw [hkb] at hfr
        simp only [Option.some_bind] at hfr
        rcases hkc : utf8Decode kbytes with _ | kchars
        · rw [hkc] at hfr; cases hfr
        · rw [hkc] at hfr
          simp only [Option.some_bind] at hfr
          simp only [List.cons_append, loadGo, hkb, hkc, hfr]
          have hpp : pre.append (h :: post) = pre ++ h :: post := rfl
          rw [hpp, hrest]
          rfl

/- ### Lemmas on the remote key map -/

theorem mem_insertReplace_keys (m : List (CacheKey × FileHandle)) (k : CacheKey)
    (fh : FileHandle) (n : CacheKey) :
    n ∈ (insertReplace m k fh).map Prod.fst ↔ (n ∈ m.map Prod.fst ∨ n = k) := by
  unfold insertReplace
  by_cases hk : k ∈ m.map Prod.fst
  · rw [if_pos hk]
    have hmap : (m.map (fun p => if p.1 = k then (k, fh) else p)).map Prod.fst =
        m.map Prod.fst := by
      rw [List.map_map]
      refine List.map_congr_left ?_
      intro p _
      by_cases hp : p.1 = k
      · simp [hp]
      · simp [hp]
    rw [hmap]
    constructor
    · exact Or.inl
    · rintro (hn | rfl)
      · exact hn
      · exact hk
  · rw [if_neg hk]
    simp

theorem mem_remoteKeys (handles : List FileHandle) (n : CacheKey) :
    n ∈ remoteKeys handles ↔ n ∈ handles.map file_handle_hash := by
  have haux : ∀ (hs : List FileHandle) (m : List (CacheKey × FileHandle)) (n : CacheKey),
      n ∈ (hs.foldl (fun m fh => insertReplace m (file_handle_hash fh) fh) m).map Prod.fst ↔
        (n ∈ m.map Prod.fst ∨ n ∈ hs.map file_handle_hash) := by
    intro hs
    induction hs with
    | nil => intro m n; simp
    | cons fh t ih =>
      intro m n
      simp only [List.foldl_cons, List.map_cons, List.mem_cons]
      rw [ih, mem_insertReplace_keys]
      tauto
  have := haux handles [] n
  simpa [remoteKeys, buildByHash] using this

/- ### Decomposition of a successful sync -/

theorem syncAndLoad_ok_decomp {env : Env} {view : List Metadata}
    (hok : (syncAndLoad env).result = .ok view) :
    ∃ handles d1 evs1 d2 evs2,
      listRemotePhase env.storage = .ok handles ∧
      evictGo env.removeOk (staleOf env handles) env.initialDir (listEvents env.storage) =
        (d1, evs1, none) ∧
      downloadGo env.storage.read (buildByHash handles) (missingOf env handles) d1 evs1 =
        (d2, evs2, none) ∧
      loadGo env.parse d2 (missingOf env handles ++ currentOf env handles) = .ok view ∧
      (syncAndLoad env).dir = d2 := by
  simp only [syncAndLoad] at hok
  split at hok
  · simp at hok
  · rename_i handles hL
    split at hok
    · simp at hok
    · rename_i d1 evs1 hE
      split at hok
      · simp at hok
      · rename_i d2 evs2 hD
        split at hok
        · simp at hok
        · rename_i recs hLo
          simp only [Except.ok.injEq] at hok
          subst hok
          refine ⟨handles, d1, evs1, d2, evs2, hL, hE, hD, hLo, ?_⟩
          simp only [syncAndLoad, hL, hE, hD, hLo]

theorem syncAndLoad_evict_err {env : Env} {handles : List FileHandle}
    {d1 : CacheDir} {evs1 : List Event} {e : SyncError}
    (hL : listRemotePhase env.storage = .ok handles)
    (hE : evictGo env.removeOk (staleOf env handles) env.initialDir (listEvents env.storage) =
      (d1, evs1, some e)) :
    (syncAndLoad env).result = .error e ∧ (syncAndLoad env).events = evs1 := by
  simp [syncAndLoad, hL, hE]

theorem syncAndLoad_events (env : Env) :
    ∃ l, (syncAndLoad env).events = listEvents env.storage ++ l ∧
      ∀ ev, ev ∈ l → (∃ n, ev = Event.deleted n) ∨ (∃ k, ev = Event.downloaded k) := by
  rcases hL : listRemotePhase env.storage with e | handles
  · refine ⟨[], ?_, by simp⟩
    simp [syncAndLoad, hL]
  · rcases hE : evictGo env.removeOk (staleOf env handles) env.initialDir
        (listEvents env.storage) with ⟨d1, evs1, err1⟩
    obtain ⟨l1, hl1, hall1⟩ := evictGo_events (staleOf env handles) env.initialDir
      (listEvents env.storage)
    rw [hE] at hl1
    simp only at hl1
    cases err1 with
    | some e =>
      refine ⟨l1, ?_, fun ev hev => Or.inl (hall1 ev hev)⟩
      simp only [syncAndLoad, hL, hE]
      exact hl1
    | none =>
      rcases hD : downloadGo env.storage.read (buildByHash handles)
          (missingOf env handles) d1 evs1 with ⟨d2, evs2, err2⟩
      obtain ⟨l2, hl2, hall2⟩ := downloadGo_events (missingOf env handles) d1 evs1
      rw [hD] at hl2
      simp only at hl2
      have hevs2 : evs2 = listEvents env.storage ++ (l1 ++ l2) := by
        rw [hl2, hl1, List.append_assoc]
      have hall : ∀ ev, ev ∈ l1 ++ l2 →
          (∃ n, ev = Event.deleted n) ∨ (∃ k, ev = Event.downloaded k) := by
        intro ev hev
        rcases List.mem_append.mp hev with hev | hev
        · exact Or.inl (hall1 ev hev)
        · exact Or.inr (hall2 ev hev)
      cases err2 with
      | some e =>
        refine ⟨l1 ++ l2, ?_, hall⟩
        simp only [syncAndLoad, hL, hE, hD]
        exact hevs2
      | none =>
        rcases hLo : loadGo env.parse d2 (missingOf env handles ++ currentOf env handles)
            with e | recs
        · refine ⟨l1 ++ l2, ?_, hall⟩
          simp only [syncAndLoad, hL, hE, hD, hLo]
          exact hevs2
        · refine ⟨l1 ++ l2, ?_, hall⟩
          simp only [syncAndLoad, hL, hE, hD, hLo]
          exact hevs2

/- ### Diff membership characterizations -/

theorem mem_diffStale (L R : List String) (n : String) :
    n ∈ diffStale L R ↔ (n ∈ L ∧ ¬ n ∈ R) := by
  simp [diffStale]

theorem mem_diffMissing (L R : List String) (n : String) :
    n ∈ diffMissing L R ↔ (n ∈ R ∧ ¬ n ∈ L) := by
  simp [diffMissing]

theorem mem_diffCurrent (L R : List String) (n : String) :
    n ∈ diffCurrent L R ↔ (n ∈ L ∧ n ∈ R) := by
  simp [diffCurrent]

/- ### The final directory of a successful sync -/

theorem final_names_of_ok {env : Env} {handles : List FileHandle} {view : List Metadata}
    (hL : listRemotePhase env.storage = .ok handles)
    (hok : (syncAndLoad env).result = .ok view) :
    ∀ n, n ∈ dirNames (syncAndLoad env).dir ↔ n ∈ handles.map file_handle_hash := by
  obtain ⟨handles2, d1, evs1, d2, evs2, hL2, hE, hD, hLo, hdir⟩ := syncAndLoad_ok_decomp hok
  rw [hL] at hL2
  injection hL2 with hh
  subst hh
  intro n
  rw [hdir]
  have hmem2 := downloadGo_none_mem hD n
  have hmem1 := evictGo_none_mem hE n
  rw [hmem2, hmem1]
  rw [← mem_remoteKeys handles n]
  rw [mem_diffStale, mem_diffMissing]
  tauto

theorem final_names_not_temp {env : Env} {handles : List FileHandle} {view : List Metadata}
    (hL : listRemotePhase env.storage = .ok handles)
    (hok : (syncAndLoad env).result = .ok view) :
    ∀ n, n ∈ dirNames (syncAndLoad env).dir → isTempName n = false := by
  intro n hn
  obtain ⟨fh, -, rfl⟩ := List.mem_map.mp ((final_names_of_ok hL hok n).mp hn)
  exact file_handle_hash_not_temp fh

/- ### Counting the remote-catalog interactions -/

theorem listEvents_count_bootstrap (st : Storage) :
    (listEvents st).count Event.bootstrapWrite =
      (if st.list1 = .ok ([] : List FileHandle) then 1 else 0) := by
  rcases hL : st.list1 with e | l1
  · rw [if_neg (by simp [hL])]
    simp [listEvents, hL]
  · cases l1 with
    | nil =>
      rw [if_pos rfl]
      rcases hs : st.save with e | u
      · simp [listEvents, hL, hs]
      · simp [listEvents, hL, hs]
    | cons a t =>
      rw [if_neg (by simp [hL])]
      simp [listEvents, hL]

theorem listEvents_count_listed_bootstrap (st : Storage)
    (h1 : st.list1 = .ok ([] : List FileHandle)) (h2 : st.save = .ok ()) :
    (listEvents st).count Event.listedRemote = 2 := by
  simp [listEvents, h1, h2]

theorem listEvents_count_listed_nonempty (st : Storage) (l : List FileHandle)
    (h1 : st.list1 = .ok l) (hne : l ≠ []) :
    (listEvents st).count Event.listedRemote = 1 := by
  cases l with
  | nil => exact absurd rfl hne
  | cons a t => simp [listEvents, h1]

theorem syncAndLoad_count_listing (env : Env) (ev : Event)
    (hev : (∀ n, ev ≠ Event.deleted n) ∧ (∀ k, ev ≠ Event.downloaded k)) :
    (syncAndLoad env).events.count ev = (listEvents env.storage).count ev := by
  obtain ⟨l, hl, hall⟩ := syncAndLoad_events env
  rw [hl, List.count_append]
  have hz : l.count ev = 0 := by
    rw [List.count_eq_zero]
    intro hmem
    rcases hall ev hmem with ⟨n, rfl⟩ | ⟨k, rfl⟩
    · exact hev.1 n rfl
    · exact hev.2 k rfl
  rw [hz]
  exact Nat.add_zero _

theorem mem_listEvents (st : Storage) (ev : Event) (h : ev ∈ listEvents st) :
    ev = Event.listedRemote ∨ ev = Event.bootstrapWrite := by
  rcases hL : st.list1 with e | l1
  · simp [listEvents, hL] at h; exact Or.inl h
  · cases l1 with
    | nil =>
      rcases hs : st.save with e | u
      · simp [listEvents, hL, hs] at h; tauto
      · simp [listEvents, hL, hs] at h; tauto
    | cons a t =>
      simp [listEvents, hL] at h; exact Or.inl h

/- ### The claims -/

/-- C1: convergence.  For every remote listing outcome and starting local
state, when sync_and_load returns successfully the set of final
(non-temporary) filenames in the cache directory equals exactly the image
of the remote FileHandle set under file_handle_hash: membership in the
final directory coincides with membership in the image, and no final
filename is a temporary name. -/
theorem sync_and_load_convergence (env : Env) (handles : List FileHandle)
    (view : List Metadata)
    (hL : listRemotePhase env.storage = .ok handles)
    (hok : (syncAndLoad env).result = .ok view) :
    (∀ n, n ∈ dirNames (syncAndLoad env).dir ↔ n ∈ handles.map file_handle_hash) ∧
    (∀ n, n ∈ dirNames (syncAndLoad env).dir → isTempName n = false) :=
  ⟨final_names_of_ok hL hok, final_names_not_temp hL hok⟩

theorem sync_and_load_convergence_witness :
    ("719b50b9a4f0e9f3" ∈ dirNames (syncAndLoad envC1).dir ↔
      "719b50b9a4f0e9f3" ∈ (["a"] : List FileHandle).map file_handle_hash) ∧
    ("719b50b9a4f0e9f3" ∈ dirNames (syncAndLoad envC1).dir →
      isTempName "719b50b9a4f0e9f3" = false) :=
  ⟨(sync_and_load_convergence envC1 ["a"] ["r".data] rfl rfl).1 "719b50b9a4f0e9f3",
   (sync_and_load_convergence envC1 ["a"] ["r".data] rfl rfl).2 "719b50b9a4f0e9f3"⟩

/-- C2 counterexample: an orphaned dot-prefixed temporary file for a key
that is still missing is present at the start of the run, yet the run
succeeds: the temporary file participates in the diff as stale, is deleted
during eviction, and the exclusive creation of the key's temporary file
then succeeds (the key is downloaded). -/
theorem temp_cleanup_counterexample :
    isTempName ".6578504f6f8efee1" = true ∧
    ".6578504f6f8efee1" ∈ dirNames envC2.initialDir ∧
    file_handle_hash "f-handle" = "6578504f6f8efee1" ∧
    (syncAndLoad envC2).result = .ok ["xrec".data] ∧
    Event.deleted ".6578504f6f8efee1" ∈ (syncAndLoad envC2).events ∧
    Event.downloaded "6578504f6f8efee1" ∈ (syncAndLoad envC2).events := by
  exact ⟨rfl, by decide, by decide, rfl, by decide, by decide⟩

/-- C2 amended: dot-prefixed temporary files present at the start of a sync
DO participate in the local-vs-remote diff: since no CacheKey produced by
file_handle_hash starts with a dot, such files always fall into the stale
partition and are deleted during eviction (before any download), so a
leftover temporary file for a still-missing key does not make that key's
exclusive temporary-file creation fail. -/
theorem temp_files_are_stale_and_removed (env : Env) (handles : List FileHandle) (n : String)
    (hL : listRemotePhase env.storage = .ok handles)
    (hmem : n ∈ dirNames env.initialDir)
    (htemp : isTempName n = true) :
    n ∈ staleOf env handles ∧
    (∀ view, (syncAndLoad env).result = .ok view → ¬ n ∈ dirNames (syncAndLoad env).dir) := by
  have hnr : ¬ n ∈ remoteKeys handles := by
    rw [mem_remoteKeys]
    intro hn
    obtain ⟨fh, -, rfl⟩ := List.mem_map.mp hn
    have hft := file_handle_hash_not_temp fh
    rw [hft] at htemp
    exact Bool.noConfusion htemp
  refine ⟨(mem_diffStale _ _ n).mpr ⟨hmem, hnr⟩, ?_⟩
  intro view hok hn
  rw [final_names_of_ok hL hok n, ← mem_remoteKeys] at hn
  exact hnr hn

theorem temp_files_are_stale_and_removed_witness :
    ".6578504f6f8efee1" ∈ staleOf envC2 ["f-handle"] ∧
    ¬ ".6578504f6f8efee1" ∈ dirNames (syncAndLoad envC2).dir :=
  have h := temp_files_are_stale_and_removed envC2 ["f-handle"] ".6578504f6f8efee1"
    rfl (by decide) rfl
  ⟨h.1, h.2 ["xrec".data] rfl⟩

/-- C3 counterexample: the remote catalog is empty, the bootstrap identity
record is written, the re-listing is empty again, and sync_and_load
nevertheless returns successfully with an empty MetadataView instead of
failing with a consistency error. -/
theorem empty_after_bootstrap_counterexample :
    envC3.storage.list1 = .ok [] ∧ envC3.storage.list2 = .ok [] ∧
    (syncAndLoad envC3).result = .ok [] ∧
    Event.bootstrapWrite ∈ (syncAndLoad envC3).events :=
  ⟨rfl, rfl, rfl, by decide⟩

/-- C3 amended: if the initial remote listing is empty, the bootstrap
identity record is written and the catalog is re-listed; but when the
remote catalog remains empty after the bootstrap attempt, sync_and_load
performs no consistency check: it evicts all local files and returns an
empty MetadataView successfully (a bootstrap write failure, by contrast,
does abort the sync). -/
theorem empty_after_bootstrap_returns_empty_view (env : Env)
    (h1 : env.storage.list1 = .ok ([] : List FileHandle))
    (h2 : env.storage.save = .ok ())
    (h3 : env.storage.list2 = .ok ([] : List FileHandle))
    (hwf : dirWF env.initialDir)
    (hrm : ∀ n, n ∈ dirNames env.initialDir → env.removeOk n = true) :
    (syncAndLoad env).result = .ok [] ∧ (syncAndLoad env).dir = [] ∧
    (syncAndLoad env).events.count Event.bootstrapWrite = 1 := by
  have hL : listRemotePhase env.storage = .ok [] := by
    simp [listRemotePhase, h1, h2, h3]
  have hstale : staleOf env [] = dirNames env.initialDir := by
    show diffStale (dirNames env.initialDir) [] = dirNames env.initialDir
    simp [diffStale]
  have hmiss : missingOf env [] = [] := rfl
  have hcur : currentOf env [] = [] := by
    show diffCurrent (dirNames env.initialDir) [] = []
    simp [diffCurrent]
  obtain ⟨d1, evs1, hE⟩ := @evictGo_none_of_all env.removeOk (staleOf env [])
    env.initialDir (listEvents env.storage)
    (by rw [hstale]; exact hwf)
    (by rw [hstale]; intro n hn; exact ⟨hn, hrm n hn⟩)
  have hd1 : d1 = [] := by
    have hm := evictGo_none_mem hE
    rcases hd : d1 with _ | ⟨e0, d1t⟩
    · rfl
    · exfalso
      have h0 := (hm e0.1).mp (by rw [hd]; simp [dirNames])
      rw [hstale] at h0
      exact h0.2 h0.1
  subst hd1
  have hDL : downloadGo env.storage.read (buildByHash ([] : List FileHandle))
      (missingOf env []) [] evs1 = ([], evs1, none) := rfl
  have hLD : loadGo env.parse [] (missingOf env [] ++ currentOf env []) = .ok [] := by
    rw [hmiss, hcur]; rfl
  refine ⟨?_, ?_, ?_⟩
  · simp only [syncAndLoad, hL, hE, hDL, hLD]
  · simp only [syncAndLoad, hL, hE, hDL, hLD]
  · rw [syncAndLoad_count_listing env Event.bootstrapWrite
      ⟨fun n => by simp, fun k => by simp⟩, listEvents_count_bootstrap, if_pos h1]

theorem empty_after_bootstrap_returns_empty_view_witness :
    (syncAndLoad envC3).result = .ok [] ∧ (syncAndLoad envC3).dir = [] ∧
    (syncAndLoad envC3).events.count Event.bootstrapWrite = 1 :=
  empty_after_bootstrap_returns_empty_view envC3 rfl rfl rfl (by decide)
    (fun n hn => absurd hn (by simp [envC3, dirNames]))

/-- C4 counterexample: a cache file whose text has an interior empty line
between two parseable lines makes the sync abort with a parse error even
though every non-empty line parses, because str::lines yields the interior
empty line and serde_json rejects the empty string; the empty line is not
skipped. -/
theorem empty_line_aborts_counterexample :
    (syncAndLoad envC4).result = .error (.parseFailed "719b50b9a4f0e9f3") ∧
    envC4.parse "A".data = some "A".data ∧ envC4.parse "B".data = some "B".data ∧
    rustLines "A\n\nB".data = ["A".data, "".data, "B".data] :=
  ⟨rfl, rfl, rfl, rfl⟩

/-- C4 amended: for every cache file read by the loader, the records
contributed to the result are the parses of exactly the lines yielded by
the line splitter (str::lines), in line order; interior empty lines are
yielded like any other line rather than skipped (only a final trailing
line terminator yields no line), and a parse failure on any yielded line
aborts the load with a parse error naming the file. -/
theorem loader_parses_all_split_lines (parse : List Char → Option Metadata)
    (d : CacheDir) (h : String) (bytes : List Nat) (chars : List Char)
    (h1 : lookupName h d = some bytes) (h2 : utf8Decode bytes = some chars) :
    loadGo parse d [h] =
      (match parseAll parse (rustLines chars) with
        | none => Except.error (.parseFailed h)
        | some recs => Except.ok recs) := by
  rcases hp : parseAll parse (rustLines chars) with _ | recs <;>
    simp [loadGo, h1, h2, hp, Except.map]

theorem loader_parses_all_split_lines_witness :
    loadGo envC4.parse envC4.initialDir ["719b50b9a4f0e9f3"] =
      .error (.parseFailed "719b50b9a4f0e9f3") := by
  have h := loader_parses_all_split_lines envC4.parse envC4.initialDir
    "719b50b9a4f0e9f3" (utf8Encode "A\n\nB") "A\n\nB".data rfl rfl
  rw [h]
  rfl

/-- C5: view completeness.  After a successful sync_and_load the returned
MetadataView is exactly the concatenation, in load order and with per-file
record order preserved, of the records of every file whose key is in
missing followed by current; no stale (evicted) key is ever among the
loaded keys. -/
theorem view_completeness (env : Env) (handles : List FileHandle) (view : List Metadata)
    (hL : listRemotePhase env.storage = .ok handles)
    (hok : (syncAndLoad env).result = .ok view) :
    (∃ chunks, recordsAll env.parse (syncAndLoad env).dir
        (missingOf env handles ++ currentOf env handles) = some chunks ∧
      view = chunks.flatten) ∧
    (∀ h, h ∈ staleOf env handles →
      ¬ h ∈ missingOf env handles ++ currentOf env handles) := by
  obtain ⟨handles2, d1, evs1, d2, evs2, hL2, hE, hD, hLo, hdir⟩ := syncAndLoad_ok_decomp hok
  rw [hL] at hL2
  injection hL2 with hh
  subst hh
  constructor
  · rw [hdir]
    exact loadGo_ok hLo
  · intro h hst hmc
    have hst2 := (mem_diffStale _ _ h).mp hst
    rcases List.mem_append.mp hmc with hm | hm
    · exact hst2.2 ((mem_diffMissing _ _ h).mp hm).1
    · exact hst2.2 ((mem_diffCurrent _ _ h).mp hm).2

theorem view_completeness_witness :
    ¬ "deadbeef" ∈ (missingOf envC5 ["a", "b"] ++ currentOf envC5 ["a", "b"]) :=
  (view_completeness envC5 ["a", "b"] ["B1".data, "B2".data, "A".data] rfl rfl).2
    "deadbeef" (by decide)

/-- C6: eviction failure aborts.  When the remote listing succeeds and
deleting the local file of one stale key fails, sync_and_load aborts with
an error naming the offending key, and no download event is ever emitted
(the download stage is not reached). -/
theorem evict_failure_aborts (env : Env) (handles : List FileHandle) (h : String)
    (hL : listRemotePhase env.storage = .ok handles)
    (hwf : dirWF env.initialDir)
    (hmem : h ∈ staleOf env handles)
    (hfail : env.removeOk h = false)
    (hothers : ∀ n, n ∈ staleOf env handles → n ≠ h → env.removeOk n = true) :
    (syncAndLoad env).result = .error (.removeFailed h) ∧
    (∀ k, ¬ Event.downloaded k ∈ (syncAndLoad env).events) := by
  have hsub : ∀ n, n ∈ staleOf env handles → n ∈ dirNames env.initialDir :=
    fun n hn => ((mem_diffStale _ _ n).mp hn).1
  have hnd : (staleOf env handles).Nodup := hwf.filter _
  obtain ⟨d1, evs1, hE⟩ := evictGo_fail hmem hfail hnd
    (fun n hn hne => ⟨hsub n hn, hothers n hn hne⟩)
  obtain ⟨hres, hevs⟩ := syncAndLoad_evict_err hL hE
  refine ⟨hres, ?_⟩
  intro k hk
  rw [hevs] at hk
  obtain ⟨l1, hl1, hall1⟩ := evictGo_events (staleOf env handles) env.initialDir
    (listEvents env.storage)
  rw [hE] at hl1
  simp only at hl1
  rw [hl1] at hk
  rcases List.mem_append.mp hk with hk | hk
  · rcases mem_listEvents env.storage _ hk with he | he <;> exact Event.noConfusion he
  · obtain ⟨n, hn⟩ := hall1 _ hk
    exact Event.noConfusion hn

theorem evict_failure_aborts_witness :
    (syncAndLoad envC6).result = .error (.removeFailed "stalefile") ∧
    ¬ Event.downloaded "719b50b9a4f0e9f3" ∈ (syncAndLoad envC6).events := by
  have hothers : ∀ n, n ∈ staleOf envC6 ["a"] → n ≠ "stalefile" →
      envC6.removeOk n = true := by
    intro n hn hne
    have hst : staleOf envC6 ["a"] = ["stalefile"] := by decide
    rw [hst, List.mem_singleton] at hn
    exact absurd hn hne
  have h := evict_failure_aborts envC6 ["a"] "stalefile" rfl (by decide) (by decide)
    (by decide) hothers
  exact ⟨h.1, h.2 "719b50b9a4f0e9f3"⟩

/-- C7 counterexample: file_handle_hash does not produce keys of one fixed
width: format "{:x}" pads with no leading zeros, so the handle written 0
hashes to a 16-hex-digit key while the handle written 19 hashes to a
15-hex-digit key. -/
theorem hash_width_counterexample :
    (file_handle_hash "0").length = 16 ∧ (file_handle_hash "19").length = 15 :=
  ⟨rfl, rfl⟩

/-- C7 amended: file_handle_hash is a deterministic function of the
FileHandle (equal handles always map to the same CacheKey), and every
CacheKey it produces has between 1 and 16 lowercase hex digits (the
64-bit hash is printed without leading-zero padding, so the width is
bounded but not fixed). -/
theorem hash_deterministic_bounded_width (fh1 fh2 : FileHandle) (heq : fh1 = fh2) :
    file_handle_hash fh1 = file_handle_hash fh2 ∧
    1 ≤ (file_handle_hash fh1).length ∧ (file_handle_hash fh1).length ≤ 16 :=
  ⟨congrArg file_handle_hash heq,
   (file_handle_hash_length fh1).1, (file_handle_hash_length fh1).2⟩

theorem hash_deterministic_bounded_width_witness :
    file_handle_hash "a" = file_handle_hash "a" ∧
    1 ≤ (file_handle_hash "a").length ∧ (file_handle_hash "a").length ≤ 16 :=
  hash_deterministic_bounded_width "a" "a" rfl

/-- C8: bootstrap once.  Within one sync_and_load call the bootstrap write
happens exactly when the initial remote listing returns the empty list
(one bootstrapWrite event then, none otherwise); when it happens and the
write succeeds the catalog is listed exactly twice (the initial listing
plus exactly one re-listing), and when the initial listing has content the
catalog is listed exactly once and no bootstrap write is performed. -/
theorem bootstrap_iff_empty_listing (env : Env) :
    (syncAndLoad env).events.count Event.bootstrapWrite =
      (if env.storage.list1 = .ok ([] : List FileHandle) then 1 else 0) ∧
    (env.storage.list1 = .ok ([] : List FileHandle) → env.storage.save = .ok () →
      (syncAndLoad env).events.count Event.listedRemote = 2) ∧
    (∀ l, env.storage.list1 = .ok l → l ≠ [] →
      (syncAndLoad env).events.count Event.listedRemote = 1) := by
  have hbw := syncAndLoad_count_listing env Event.bootstrapWrite
    ⟨fun n => by simp, fun k => by simp⟩
  have hlr := syncAndLoad_count_listing env Event.listedRemote
    ⟨fun n => by simp, fun k => by simp⟩
  refine ⟨?_, ?_, ?_⟩
  · rw [hbw, listEvents_count_bootstrap]
  · intro h1 h2
    rw [hlr, listEvents_count_listed_bootstrap env.storage h1 h2]
  · intro l h1 hne
    rw [hlr, listEvents_count_listed_nonempty env.storage l h1 hne]

theorem bootstrap_iff_empty_listing_witness :
    (syncAndLoad envC8).events.count Event.bootstrapWrite =
      (if envC8.storage.list1 = .ok ([] : List FileHandle) then 1 else 0) ∧
    (syncAndLoad envC8).events.count Event.listedRemote = 2 :=
  ⟨(bootstrap_iff_empty_listing envC8).1,
   (bootstrap_iff_empty_listing envC8).2.1 rfl rfl⟩

/-- C10: invalid UTF-8 aborts.  If a cache file selected for loading (key
in missing followed by current) holds bytes that are not valid UTF-8 and
every file before it in load order loads cleanly, sync_and_load aborts
with the invalid-UTF-8 error naming that file, which is an I/O-level error
kind; the file is not decoded lossily and not skipped. -/
theorem invalid_utf8_aborts (env : Env) (handles : List FileHandle)
    (d1 : CacheDir) (evs1 : List Event) (d2 : CacheDir) (evs2 : List Event)
    (pre post : List String) (h : String) (bytes : List Nat)
    (hL : listRemotePhase env.storage = .ok handles)
    (hE : evictGo env.removeOk (staleOf env handles) env.initialDir (listEvents env.storage) =
      (d1, evs1, none))
    (hD : downloadGo env.storage.read (buildByHash handles) (missingOf env handles) d1 evs1 =
      (d2, evs2, none))
    (horder : missingOf env handles ++ currentOf env handles = pre ++ h :: post)
    (hpre : ∀ k, k ∈ pre → (fileRecords env.parse d2 k).isSome)
    (hbytes : lookupName h d2 = some bytes)
    (hbad : utf8Decode bytes = none) :
    (syncAndLoad env).result = .error (.invalidUtf8 h) ∧
    SyncError.isIoErrorKind (.invalidUtf8 h) = true := by
  have hload : loadGo env.parse d2 (missingOf env handles ++ currentOf env handles) =
      .error (.invalidUtf8 h) := by
    rw [horder]
    exact loadGo_first_bad hpre hbytes hbad
  refine ⟨?_, rfl⟩
  simp only [syncAndLoad, hL, hE, hD, hload]

theorem invalid_utf8_aborts_witness :
    (syncAndLoad envC10).result = .error (.invalidUtf8 "719b50b9a4f0e9f3") ∧
    SyncError.isIoErrorKind (.invalidUtf8 "719b50b9a4f0e9f3") = true :=
  invalid_utf8_aborts envC10 ["a"] envC10.initialDir (listEvents envC10.storage)
    envC10.initialDir (listEvents envC10.storage) [] [] "719b50b9a4f0e9f3" [255]
    rfl rfl rfl rfl (fun k hk => absurd hk (List.not_mem_nil k)) rfl rfl
